import Mathlib

/-!
Verification of the round-robin load balancer in `src/main.go`.

The Go code is shallowly embedded: the pool and its operations become pure
functions on explicit state, the `uint64` round-robin cursor is a `Nat`
reduced modulo `2 ^ 64` wherever the code writes it, the request context
values become an explicit record of optional counters, and the mutually
recursive dispatch / error-handler pair becomes a mutual well-founded
recursion.  Network effects (whether a proxied request or a TCP probe
succeeds) are abstracted into boolean oracles passed as parameters.
-/

set_option maxHeartbeats 1000000

namespace LB

/-- One upstream backend (src/main.go, `type Backend`): its address (the URL
as a string, which is the identity key used by `MarkBackendStatus`) and its
liveness flag.  The `ReverseProxy` handle is bound to the URL at
construction and is represented here by the URL itself. -/
structure Backend where
  url : String
  alive : Bool
deriving DecidableEq

instance : Inhabited Backend := ⟨⟨"", false⟩⟩

/-- src/main.go, `type ServerPool`: the backend list plus the shared
round-robin cursor `current` (a `uint64`, kept as a `Nat`; every write the
code performs is reduced modulo `2 ^ 64`). -/
structure ServerPool where
  backends : List Backend
  current : Nat
deriving DecidableEq

/-- src/main.go, `Backend.SetAlive`. -/
def SetAlive (b : Backend) (alive : Bool) : Backend := { b with alive := alive }

/-- src/main.go, `Backend.IsAlive`. -/
def IsAlive (b : Backend) : Bool := b.alive

/-- Loop body of `ServerPool.MarkBackendStatus` (src/main.go): update the
first backend whose URL string equals the given one, then `break`. -/
def markFirst (bs : List Backend) (u : String) (alive : Bool) : List Backend :=
  match bs with
  | [] => []
  | b :: rest =>
    if b.url = u then SetAlive b alive :: rest else b :: markFirst rest u alive

/-- src/main.go, `ServerPool.MarkBackendStatus`. -/
def MarkBackendStatus (s : ServerPool) (backendUrl : String) (alive : Bool) : ServerPool :=
  { s with backends := markFirst s.backends backendUrl alive }

/-- src/main.go, `ServerPool.NextIndex`:
`int(atomic.AddUint64(&s.current, uint64(1)) % uint64(len(s.backends)))`.
The atomic add stores and returns `current + 1` wrapped at `2 ^ 64`; on an
empty pool the `% uint64(0)` is a Go runtime panic, modelled as `none`. -/
def NextIndex (s : ServerPool) : Option (ServerPool × Nat) :=
  if s.backends.length = 0 then none
  else
    let cur := (s.current + 1) % 2 ^ 64
    some ({ s with current := cur }, cur % s.backends.length)

/-- `s.backends[i].IsAlive()`; the out-of-bounds branch is dead code whenever
the pool is non-empty, since the scan only forms indices `i % len`. -/
def isAliveAt (bs : List Backend) (i : Nat) : Bool :=
  match bs[i]? with
  | some b => IsAlive b
  | none => false

/-- `s.backends[i].URL` as a string. -/
def urlAt (bs : List Backend) (i : Nat) : String :=
  match bs[i]? with
  | some b => b.url
  | none => ""

/-- The scan loop of `ServerPool.GetNextPeer` (src/main.go):
`for i := next; i < len(s.backends)+next; i++ { idx := i % len; ... }`,
with `fuel` the number of iterations left (initially `len`) and `cur` the
value currently stored in `s.current`.  On finding an alive backend at an
`i` other than the original `next`, the code executes
`atomic.StoreUint64(&s.current, uint64(idx))`.  Returns the final stored
cursor together with the index of the returned backend (`none` = Go `nil`). -/
def getNextPeerLoop (bs : List Backend) (next cur i : Nat) : Nat → Nat × Option Nat
  | 0 => (cur, none)
  | fuel + 1 =>
    let idx := i % bs.length
    if isAliveAt bs idx then
      (if i ≠ next then idx else cur, some idx)
    else
      getNextPeerLoop bs next cur (i + 1) fuel

/-- src/main.go, `ServerPool.GetNextPeer`.  The outer `none` is the
modulo-by-zero panic inherited from `NextIndex` on an empty pool; otherwise
the result is the pool with its updated cursor together with the index of
the returned backend (`none` = the function's `nil` return). -/
def GetNextPeer (s : ServerPool) : Option (ServerPool × Option Nat) :=
  match NextIndex s with
  | none => none
  | some (s1, next) =>
    let r := getNextPeerLoop s1.backends next s1.current next s1.backends.length
    some ({ s1 with current := r.1 }, r.2)

/-- The two context values threaded through a request (src/main.go,
`Attempts` and `Retry` keys): each is either absent or an integer. -/
structure ReqContext where
  attempts : Option Nat
  retry : Option Nat
deriving DecidableEq

/-- src/main.go, `GetAttemptsFromContext`: the stored value, defaulting to 1
when absent. -/
def GetAttemptsFromContext (c : ReqContext) : Nat := c.attempts.getD 1

/-- src/main.go, `GetRetryFromContext`: the stored value, defaulting to 0
when absent (the `fmt.Println` side effect is dropped). -/
def GetRetryFromContext (c : ReqContext) : Nat := c.retry.getD 0

/-- Outcome of one dispatched request as observable at the client.
`noResponse` is `lb` returning without writing anything (its `peer != nil`
check failing); `crashed` is the modulo-by-zero panic on an empty pool. -/
inductive Response where
  | fromBackend (url : String)
  | serviceUnavailable
  | noResponse
  | crashed
deriving DecidableEq

/-- Observable steps of the retry/failover chain.  `backoffAndRetry u ms k`
is the `time.After` backoff of `ms` milliseconds followed by re-invoking
backend `u`'s proxy with the `Retry` value set to `k`; `markDead u` is
`serverPool.MarkBackendStatus(serverUrl, false)`; `redispatch a` is the
re-entry into `lb` with the `Attempts` value set to `a`. -/
inductive Event where
  | backoffAndRetry (url : String) (backoffMs : Nat) (newRetries : Nat)
  | markDead (url : String)
  | redispatch (newAttempts : Nat)
deriving DecidableEq

/-- Termination measure for `lb`. -/
def ctxMeasureLB (c : ReqContext) : Nat :=
  if GetAttemptsFromContext c > 3 then 0 else 5 * (4 - GetAttemptsFromContext c) + 5

/-- Termination measure for `errorHandler`. -/
def ctxMeasureEH (c : ReqContext) : Nat :=
  5 * (4 - GetAttemptsFromContext c) + (3 - GetRetryFromContext c) + 1

mutual

/-- src/main.go, `func lb`: read `Attempts` (default 1); if `> 3` answer 503
("servie not available") without touching the pool; otherwise ask the pool
for the next peer and, if one is returned, forward through its proxy (a
forward either succeeds — `healthy url` — or lands in that proxy's
`ErrorHandler`); if the peer is `nil` the handler just returns.  Produces
the final pool, the client-visible response, and the event trace. -/
def lb (healthy : String → Bool) (pool : ServerPool) (ctx : ReqContext) :
    ServerPool × Response × List Event :=
  if _h : GetAttemptsFromContext ctx > 3 then
    (pool, Response.serviceUnavailable, [])
  else
    match GetNextPeer pool with
    | none => (pool, Response.crashed, [])
    | some (pool1, none) => (pool1, Response.noResponse, [])
    | some (pool1, some idx) =>
      let u := urlAt pool1.backends idx
      if healthy u then (pool1, Response.fromBackend u, [])
      else errorHandler healthy u pool1 ctx
termination_by ctxMeasureLB ctx
decreasing_by
  simp only [ctxMeasureLB, ctxMeasureEH, GetAttemptsFromContext, GetRetryFromContext] at _h ⊢
  split <;> omega

/-- src/main.go, the `proxy.ErrorHandler` closure for the backend at `u`:
read `Retry` (default 0); if `< 3`, wait 10ms, store `Retry+1` and re-invoke
the same proxy; otherwise mark the backend dead, read `Attempts`, store
`Attempts+1` (the `Retry` value is left as-is in the context) and re-enter
`lb`. -/
def errorHandler (healthy : String → Bool) (u : String) (pool : ServerPool)
    (ctx : ReqContext) : ServerPool × Response × List Event :=
  if _h : GetRetryFromContext ctx < 3 then
    let ctx1 : ReqContext := { ctx with retry := some (GetRetryFromContext ctx + 1) }
    let out := if healthy u then (pool, Response.fromBackend u, ([] : List Event))
               else errorHandler healthy u pool ctx1
    (out.1, out.2.1, Event.backoffAndRetry u 10 (GetRetryFromContext ctx + 1) :: out.2.2)
  else
    let pool1 := MarkBackendStatus pool u false
    let ctx1 : ReqContext := { ctx with attempts := some (GetAttemptsFromContext ctx + 1) }
    let out := lb healthy pool1 ctx1
    (out.1, out.2.1,
      Event.markDead u :: Event.redispatch (GetAttemptsFromContext ctx + 1) :: out.2.2)
termination_by ctxMeasureEH ctx
decreasing_by
  · simp [ctxMeasureEH, GetAttemptsFromContext, GetRetryFromContext] at _h ⊢
    omega
  · simp [ctxMeasureLB, ctxMeasureEH, GetAttemptsFromContext, GetRetryFromContext] at _h ⊢
    split <;> omega

end

/-- `k` consecutive sequential calls to `GetNextPeer` starting from pool
state `s`: the list of returned peers (each `none` = `nil`) and the final
pool state.  A panic (empty pool) stops the sequence. -/
def selectSeq (s : ServerPool) : Nat → List (Option Nat) × ServerPool
  | 0 => ([], s)
  | k + 1 =>
    match GetNextPeer s with
    | none => ([], s)
    | some (s1, r) =>
      let rest := selectSeq s1 k
      (r :: rest.1, rest.2)

/-- Spec-side selection function, written from the spec's words: scan the
`n` consecutive indices `start, start+1, ...` (wrapping modulo `n`) and
return the first index holding an alive backend. -/
def firstAliveFrom (bs : List Backend) (start : Nat) : Option Nat :=
  ((List.range bs.length).find? fun j => isAliveAt bs ((start + j) % bs.length)).map
    fun j => (start + j) % bs.length

/-- The probe timeout in src/main.go, `isBackendAlive`: `2 * time.Second`. -/
def healthCheckTimeoutSeconds : Nat := 2

/-- src/main.go, `isBackendAlive`: dial the backend over TCP with the 2 s
timeout (`dial addr timeoutSeconds` abstracts `net.DialTimeout`, `some` =
connection established, `none` = any error); an error means dead, success
means alive. -/
def isBackendAlive (dial : String → Nat → Option Unit) (u : String) : Bool :=
  match dial u healthCheckTimeoutSeconds with
  | none => false
  | some _ => true

/-- The loop of `ServerPool.HealthCheck` (src/main.go): probe each backend
in pool order and write the result with `SetAlive`. -/
def healthCheckLoop (dial : String → Nat → Option Unit) : List Backend → List Backend
  | [] => []
  | b :: rest => SetAlive b (isBackendAlive dial b.url) :: healthCheckLoop dial rest

/-- src/main.go, `ServerPool.HealthCheck`: one full sweep. -/
def HealthCheck (dial : String → Nat → Option Unit) (s : ServerPool) : ServerPool :=
  { s with backends := healthCheckLoop dial s.backends }

/-- The backend-registration loop in `func main` (src/main.go, the
`for _, tok := range tokens` loop): for each token the code parses the URL,
builds a reverse proxy with its `ErrorHandler`, builds an `http.Server` and
starts serving — it never appends anything to `serverPool`, so the loop
leaves the pool argument untouched. -/
def mainStartupLoop (pool : ServerPool) : List String → ServerPool
  | [] => pool
  | _tok :: rest => mainStartupLoop pool rest

/-- The pool state `func main` produces from the parsed `-backend` tokens:
the zero-valued global `var serverPool ServerPool` (empty backend list,
cursor 0) threaded through the registration loop. -/
def mainStartup (tokens : List String) : ServerPool :=
  mainStartupLoop { backends := [], current := 0 } tokens

/-! ## Characterization of the `GetNextPeer` scan -/

theorem getNextPeerLoop_snd (bs : List Backend) (next cur : Nat) :
    ∀ fuel i, (getNextPeerLoop bs next cur i fuel).2 =
      ((List.range fuel).find? fun j => isAliveAt bs ((i + j) % bs.length)).map
        fun j => (i + j) % bs.length := by
  intro fuel
  induction fuel with
  | zero => intro i; simp [getNextPeerLoop]
  | succ n ih =>
    intro i
    rw [List.range_succ_eq_map]
    by_cases h : isAliveAt bs (i % bs.length)
    · rw [List.find?_cons_of_pos _ (by simpa using h)]
      simp [getNextPeerLoop, h]
    · rw [List.find?_cons_of_neg _ (by simpa using h)]
      rw [List.find?_map]
      simp only [getNextPeerLoop, h, if_false, Bool.false_eq_true, ite_false, ih (i + 1),
        Option.map_map]
      have hfun : ((fun j => isAliveAt bs ((i + j) % bs.length)) ∘ Nat.succ) =
          fun j => isAliveAt bs ((i + 1 + j) % bs.length) := by
        funext j
        simp only [Function.comp]
        rw [show i + Nat.succ j = i + 1 + j by omega]
      have hfun2 : ((fun j => (i + j) % bs.length) ∘ Nat.succ) =
          fun j => (i + 1 + j) % bs.length := by
        funext j
        simp only [Function.comp]
        rw [show i + Nat.succ j = i + 1 + j by omega]
      rw [hfun, hfun2]

theorem getNextPeerLoop_fst (bs : List Backend) (next cur : Nat) :
    ∀ fuel i, (getNextPeerLoop bs next cur i fuel).1 = cur ∨
      ∃ idx, (getNextPeerLoop bs next cur i fuel).2 = some idx ∧
        (getNextPeerLoop bs next cur i fuel).1 = idx := by
  intro fuel
  induction fuel with
  | zero => intro i; left; simp [getNextPeerLoop]
  | succ n ih =>
    intro i
    by_cases h : isAliveAt bs (i % bs.length)
    · by_cases hi : i ≠ next
      · right
        exact ⟨i % bs.length, by simp [getNextPeerLoop, h, hi]⟩
      · left
        simp [getNextPeerLoop, h, hi]
    · simpa [getNextPeerLoop, h] using ih (i + 1)

theorem getNextPeerLoop_fst_of_none (bs : List Backend) (next cur : Nat) :
    ∀ fuel i, (getNextPeerLoop bs next cur i fuel).2 = none →
      (getNextPeerLoop bs next cur i fuel).1 = cur := by
  intro fuel
  induction fuel with
  | zero => intro i _; simp [getNextPeerLoop]
  | succ n ih =>
    intro i hnone
    by_cases h : isAliveAt bs (i % bs.length)
    · simp [getNextPeerLoop, h] at hnone
    · simp only [getNextPeerLoop, h, Bool.false_eq_true, ite_false] at hnone ⊢
      exact ih (i + 1) hnone

/-- Every residue below `n` is hit by some offset `j < n` of the wrapping
scan that starts at `st`. -/
theorem scan_offset_exists (st i n : Nat) (h : 0 < n) (hi : i < n) :
    ∃ j, j < n ∧ (st + j) % n = i := by
  refine ⟨(n - st % n + i) % n, Nat.mod_lt _ h, ?_⟩
  rw [Nat.add_mod_mod]
  have hmd := Nat.mod_add_div st n
  have hlt : st % n < n := Nat.mod_lt _ h
  obtain ⟨A, hA⟩ : ∃ A, n * (st / n) = A := ⟨_, rfl⟩
  have h2 : st + (n - st % n + i) = i + n * (st / n + 1) := by
    have : n * (st / n + 1) = A + n := by rw [Nat.mul_add, hA, Nat.mul_one]
    omega
  rw [h2, Nat.add_mul_mod_self_left, Nat.mod_eq_of_lt hi]

/-- `firstAliveFrom` returns `none` exactly when no backend in the pool is
alive. -/
theorem firstAliveFrom_eq_none_iff (bs : List Backend) (st : Nat)
    (h : 0 < bs.length) :
    firstAliveFrom bs st = none ↔ ∀ b ∈ bs, IsAlive b = false := by
  simp only [firstAliveFrom, Option.map_eq_none', List.find?_eq_none, List.mem_range]
  constructor
  · intro hall b hb
    obtain ⟨i, hi, hget⟩ := List.mem_iff_getElem.mp hb
    obtain ⟨j, hj, hmod⟩ := scan_offset_exists st i bs.length h hi
    have := hall j hj
    rw [hmod] at this
    simp only [isAliveAt, List.getElem?_eq_getElem hi, hget] at this
    simpa using this
  · intro hall j _hj
    simp only [isAliveAt]
    cases hget : bs[(st + j) % bs.length]? with
    | none => simp
    | some b =>
      have hb : b ∈ bs := List.getElem?_mem hget
      simp [hall b hb]

/-- When `firstAliveFrom` returns an index, that index is in bounds and the
backend there is alive. -/
theorem firstAliveFrom_some (bs : List Backend) (st idx : Nat)
    (h : 0 < bs.length) (heq : firstAliveFrom bs st = some idx) :
    idx < bs.length ∧ isAliveAt bs idx = true := by
  simp only [firstAliveFrom, Option.map_eq_some'] at heq
  obtain ⟨j, hfind, hidx⟩ := heq
  have hp := List.find?_some hfind
  subst hidx
  exact ⟨Nat.mod_lt _ h, hp⟩

/-- `GetNextPeer` on a non-empty pool: it performs the wrapped atomic
increment of the cursor, returns exactly `firstAliveFrom` of the resulting
start index, keeps the backend list unchanged, and the final cursor is
either the incremented value or the winning index; when nothing is alive no
cursor store beyond the increment happens. -/
theorem GetNextPeer_char (s : ServerPool) (h : 0 < s.backends.length) :
    ∃ s', GetNextPeer s = some (s', firstAliveFrom s.backends
        (((s.current + 1) % 2 ^ 64) % s.backends.length)) ∧
      s'.backends = s.backends ∧
      (s'.current = (s.current + 1) % 2 ^ 64 ∨
        ∃ idx, firstAliveFrom s.backends (((s.current + 1) % 2 ^ 64) % s.backends.length)
            = some idx ∧ s'.current = idx) ∧
      (firstAliveFrom s.backends (((s.current + 1) % 2 ^ 64) % s.backends.length) = none →
        s'.current = (s.current + 1) % 2 ^ 64) := by
  have hne : s.backends.length ≠ 0 := Nat.pos_iff_ne_zero.mp h
  refine ⟨{ backends := s.backends,
            current := (getNextPeerLoop s.backends
              (((s.current + 1) % 2 ^ 64) % s.backends.length) ((s.current + 1) % 2 ^ 64)
              (((s.current + 1) % 2 ^ 64) % s.backends.length) s.backends.length).1 },
    ?_, rfl, ?_, ?_⟩
  · simp only [GetNextPeer, NextIndex, hne, if_false, ite_false, firstAliveFrom]
    rw [getNextPeerLoop_snd]
  · have := getNextPeerLoop_fst s.backends (((s.current + 1) % 2 ^ 64) % s.backends.length)
      ((s.current + 1) % 2 ^ 64) s.backends.length
      (((s.current + 1) % 2 ^ 64) % s.backends.length)
    rcases this with h1 | ⟨idx, h2, h3⟩
    · exact Or.inl h1
    · refine Or.inr ⟨idx, ?_, h3⟩
      rw [firstAliveFrom, ← getNextPeerLoop_snd]
      exact h2
  · intro hnone
    apply getNextPeerLoop_fst_of_none
    rw [getNextPeerLoop_snd]
    rw [firstAliveFrom] at hnone
    exact hnone

/-- If the backend at the scan's first index is alive, the loop stops right
there. -/
theorem getNextPeerLoop_first_alive (bs : List Backend) (next cur i : Nat)
    (ha : isAliveAt bs (i % bs.length) = true) :
    ∀ fuel, 0 < fuel → getNextPeerLoop bs next cur i fuel =
      (if i ≠ next then i % bs.length else cur, some (i % bs.length)) := by
  intro fuel hf
  obtain ⟨m, hm⟩ := Nat.exists_eq_succ_of_ne_zero (Nat.pos_iff_ne_zero.mp hf)
  subst hm
  simp [getNextPeerLoop, ha]

/-- On a fully-alive pool the scan succeeds at its very first index, so the
only cursor write is the atomic increment. -/
theorem GetNextPeer_allAlive (s : ServerPool)
    (hall : ∀ b ∈ s.backends, IsAlive b = true) (h : 0 < s.backends.length) :
    GetNextPeer s = some ({ backends := s.backends, current := (s.current + 1) % 2 ^ 64 },
      some (((s.current + 1) % 2 ^ 64) % s.backends.length)) := by
  have hne : s.backends.length ≠ 0 := Nat.pos_iff_ne_zero.mp h
  have hnext : ((s.current + 1) % 2 ^ 64) % s.backends.length < s.backends.length :=
    Nat.mod_lt _ h
  have halive : isAliveAt s.backends
      ((((s.current + 1) % 2 ^ 64) % s.backends.length) % s.backends.length) = true := by
    rw [Nat.mod_eq_of_lt hnext]
    simp only [isAliveAt, List.getElem?_eq_getElem hnext]
    exact hall _ (List.getElem_mem _)
  simp only [GetNextPeer, NextIndex, hne, ite_false]
  rw [getNextPeerLoop_first_alive _ _ _ _ halive _ h]
  simp [Nat.mod_eq_of_lt hnext]

/-- `k` consecutive selections against a fully-alive pool, assuming the
cursor does not wrap past `2 ^ 64` during them: the returned indices are the
`k` successive cursor values reduced modulo the pool size. -/
theorem selectSeq_allAlive (s : ServerPool)
    (hall : ∀ b ∈ s.backends, IsAlive b = true) (h : 0 < s.backends.length) :
    ∀ k, s.current + k < 2 ^ 64 →
      (selectSeq s k).1 =
        (List.range k).map fun j => some ((s.current + 1 + j) % s.backends.length) := by
  intro k
  induction k generalizing s with
  | zero => intro _; simp [selectSeq]
  | succ m ih =>
    intro hlt
    have hc1 : (s.current + 1) % 2 ^ 64 = s.current + 1 :=
      Nat.mod_eq_of_lt (by omega)
    simp only [selectSeq, GetNextPeer_allAlive s hall h, hc1]
    have ihs := ih { backends := s.backends, current := s.current + 1 } hall h
      (by show s.current + 1 + m < 2 ^ 64; omega)
    simp only at ihs
    rw [ihs, List.range_succ_eq_map, List.map_cons, List.map_map]
    congr 1
    apply List.map_congr_left
    intro j _
    simp only [Function.comp, Option.some.injEq]
    congr 1
    omega

/-- The indices `(c + 1 + j) % n` for `j < n` form a permutation of
`0, ..., n - 1`. -/
theorem rotation_perm (c n : Nat) (h : 0 < n) :
    ((List.range n).map fun j => (c + 1 + j) % n).Perm (List.range n) := by
  apply List.Subperm.perm_of_length_le
  · apply List.subperm_of_subset
    · apply List.Nodup.map_on
      · intro a ha b hb hab
        have ha' : a < n := List.mem_range.mp ha
        have hb' : b < n := List.mem_range.mp hb
        have hmod : a ≡ b [MOD n] := Nat.ModEq.add_left_cancel' (c + 1) hab
        rw [Nat.ModEq, Nat.mod_eq_of_lt ha', Nat.mod_eq_of_lt hb'] at hmod
        exact hmod
      · exact List.nodup_range n
    · intro x hx
      obtain ⟨j, _, hj⟩ := List.mem_map.mp hx
      rw [List.mem_range, ← hj]
      exact Nat.mod_lt _ h
  · simp

/-! ## Claim theorems: selection (C1, C6, C8, C10) -/

/-- Claim C1 (confirmed): on a non-empty pool, `GetNextPeer` atomically
increments the shared cursor (wrapping at `2 ^ 64`), takes
`start = cursor mod n`, and returns exactly the first alive backend of the
`n`-index wrapping scan from `start` (the spec-side `firstAliveFrom`);
it returns `nil` precisely when no backend is alive, and any returned index
holds an alive backend.  The "cursor 0, size 3 selects index 1" instance is
the witness. -/
theorem C1_nextLivePeer_first_alive (s : ServerPool) (h : 0 < s.backends.length) :
    ∃ s', GetNextPeer s = some (s', firstAliveFrom s.backends
        (((s.current + 1) % 2 ^ 64) % s.backends.length)) ∧
      s'.backends = s.backends ∧
      (firstAliveFrom s.backends (((s.current + 1) % 2 ^ 64) % s.backends.length) = none ↔
        ∀ b ∈ s.backends, IsAlive b = false) ∧
      ∀ idx, firstAliveFrom s.backends (((s.current + 1) % 2 ^ 64) % s.backends.length)
          = some idx → isAliveAt s.backends idx = true := by
  obtain ⟨s', heq, hbk, _, _⟩ := GetNextPeer_char s h
  refine ⟨s', heq, hbk, firstAliveFrom_eq_none_iff s.backends _ h, ?_⟩
  intro idx hidx
  exact (firstAliveFrom_some s.backends _ idx h hidx).2

/-- Witness for C1: with starting cursor 0 and a fully-alive pool of size 3
the first call selects index 1. -/
theorem C1_witness :
    (∃ s', GetNextPeer ⟨[⟨"a", true⟩, ⟨"b", true⟩, ⟨"c", true⟩], 0⟩ = some (s',
        firstAliveFrom [⟨"a", true⟩, ⟨"b", true⟩, ⟨"c", true⟩]
          (((0 + 1) % 2 ^ 64) % 3)) ∧
      s'.backends = [⟨"a", true⟩, ⟨"b", true⟩, ⟨"c", true⟩] ∧
      (firstAliveFrom [⟨"a", true⟩, ⟨"b", true⟩, ⟨"c", true⟩] (((0 + 1) % 2 ^ 64) % 3)
          = none ↔ ∀ b ∈ [(⟨"a", true⟩ : Backend), ⟨"b", true⟩, ⟨"c", true⟩],
            IsAlive b = false) ∧
      ∀ idx, firstAliveFrom [⟨"a", true⟩, ⟨"b", true⟩, ⟨"c", true⟩] (((0 + 1) % 2 ^ 64) % 3)
          = some idx → isAliveAt [⟨"a", true⟩, ⟨"b", true⟩, ⟨"c", true⟩] idx = true) ∧
    firstAliveFrom [⟨"a", true⟩, ⟨"b", true⟩, ⟨"c", true⟩] (((0 + 1) % 2 ^ 64) % 3)
      = some 1 :=
  ⟨C1_nextLivePeer_first_alive ⟨[⟨"a", true⟩, ⟨"b", true⟩, ⟨"c", true⟩], 0⟩ (by decide),
   by decide⟩

/-- Claim C6, amended: for a fully-alive pool of size `n`, `n` consecutive
sequential calls to `GetNextPeer` return every backend exactly once —
provided the starting cursor `c` satisfies `c + n < 2 ^ 64`, i.e. the
`uint64` cursor does not wrap during those calls (the unrestricted claim
fails at cursors near `2 ^ 64`, see the counterexample). -/
theorem C6_roundRobin_coverage (s : ServerPool)
    (hall : ∀ b ∈ s.backends, IsAlive b = true) (h : 0 < s.backends.length)
    (hnw : s.current + s.backends.length < 2 ^ 64) :
    ∃ l : List Nat, (selectSeq s s.backends.length).1 = l.map some ∧
      l.Perm (List.range s.backends.length) := by
  refine ⟨(List.range s.backends.length).map
    fun j => (s.current + 1 + j) % s.backends.length, ?_, rotation_perm _ _ h⟩
  rw [selectSeq_allAlive s hall h _ hnw, List.map_map]
  rfl

/-- Witness for C6 (amended): a fully-alive pool of size 3 with cursor 5 is
covered exactly once by 3 consecutive selections. -/
theorem C6_witness :
    ∃ l : List Nat,
      (selectSeq ⟨[⟨"a", true⟩, ⟨"b", true⟩, ⟨"c", true⟩], 5⟩ 3).1 = l.map some ∧
      l.Perm (List.range 3) :=
  C6_roundRobin_coverage ⟨[⟨"a", true⟩, ⟨"b", true⟩, ⟨"c", true⟩], 5⟩
    (by decide) (by decide) (by decide)

/-- Counterexample to C6 as stated: with the fully-alive pool of size 3 and
starting cursor `2 ^ 64 - 2` (a legal `uint64` value), the three consecutive
calls return backend 0 twice and never backend 2, because the cursor wraps
and `2 ^ 64` is not a multiple of 3. -/
theorem C6_counterexample :
    (selectSeq ⟨[⟨"a", true⟩, ⟨"b", true⟩, ⟨"c", true⟩], 2 ^ 64 - 2⟩ 3).1 =
      [some 0, some 0, some 1] ∧
    ¬ ∃ l : List Nat, ([some 0, some 0, some 1] : List (Option Nat)) = l.map some ∧
        l.Perm (List.range 3) := by
  constructor
  · decide
  · rintro ⟨l, hl, hp⟩
    have hl' : l = [0, 0, 1] := by
      have : l.map some = ([0, 0, 1] : List Nat).map some := by
        rw [← hl]; rfl
      exact List.map_injective_iff.mpr (fun _ _ => Option.some.inj) this
    rw [hl'] at hp
    exact absurd hp (by decide)

/-- Claim C8, amended: the cursor is not monotone.  `MarkBackendStatus` and
`HealthCheck` never touch it; a `GetNextPeer` call first stores the wrapped
increment `(c + 1) % 2 ^ 64` and then, if the scan wins at an index other
than its start, stores that winning index — which may be smaller than the
previous value (see the counterexample).  When no backend is alive, only
the increment is stored. -/
theorem C8_cursor_evolution (s : ServerPool) :
    (∀ u a, (MarkBackendStatus s u a).current = s.current) ∧
    (∀ dial, (HealthCheck dial s).current = s.current) ∧
    ∀ s' r, GetNextPeer s = some (s', r) →
      (s'.current = (s.current + 1) % 2 ^ 64 ∨
        ∃ idx, r = some idx ∧ s'.current = idx ∧ idx < s.backends.length) ∧
      (r = none → s'.current = (s.current + 1) % 2 ^ 64) := by
  refine ⟨fun _ _ => rfl, fun _ => rfl, ?_⟩
  intro s' r hg
  have h : 0 < s.backends.length := by
    by_contra hc
    have h0 : s.backends.length = 0 := by omega
    simp [GetNextPeer, NextIndex, h0] at hg
  obtain ⟨s'', heq, _, hdisj, hnone⟩ := GetNextPeer_char s h
  rw [heq] at hg
  obtain ⟨hs, hr⟩ : s'' = s' ∧ firstAliveFrom s.backends
      (((s.current + 1) % 2 ^ 64) % s.backends.length) = r := by
    have := Option.some.inj hg
    exact ⟨congrArg Prod.fst this, congrArg Prod.snd this⟩
  subst hs
  subst hr
  constructor
  · rcases hdisj with h1 | ⟨idx, h2, h3⟩
    · exact Or.inl h1
    · exact Or.inr ⟨idx, h2, h3, (firstAliveFrom_some _ _ _ h h2).1⟩
  · exact hnone

/-- Witness for C8 (amended), at a concrete pool where the scan does store
the winning index. -/
theorem C8_witness :
    (∀ u a, (MarkBackendStatus ⟨[⟨"a", false⟩, ⟨"b", true⟩], 7⟩ u a).current = 7) ∧
    (∀ dial, (HealthCheck dial ⟨[⟨"a", false⟩, ⟨"b", true⟩], 7⟩).current = 7) ∧
    ∀ s' r, GetNextPeer ⟨[⟨"a", false⟩, ⟨"b", true⟩], 7⟩ = some (s', r) →
      (s'.current = (7 + 1) % 2 ^ 64 ∨ ∃ idx, r = some idx ∧ s'.current = idx ∧ idx < 2) ∧
      (r = none → s'.current = (7 + 1) % 2 ^ 64) :=
  C8_cursor_evolution ⟨[⟨"a", false⟩, ⟨"b", true⟩], 7⟩

/-- Counterexample to C8 as stated: with pool `[dead, alive, alive]` and
cursor 2, `GetNextPeer` increments the cursor to 3, scans from index 0,
wins at index 1 and stores 1 — strictly smaller than the cursor's value
both before the call (2) and after the increment (3). -/
theorem C8_counterexample :
    GetNextPeer ⟨[⟨"a", false⟩, ⟨"b", true⟩, ⟨"c", true⟩], 2⟩ =
      some (⟨[⟨"a", false⟩, ⟨"b", true⟩, ⟨"c", true⟩], 1⟩, some 1) ∧ (1 : Nat) < 2 := by
  constructor
  · rfl
  · decide

/-- Claim C10 (confirmed): `NextIndex` — and with it `GetNextPeer` — is only
defined on a non-empty pool: the empty pool hits the `% uint64(0)` runtime
panic (modelled by `none`); on a non-empty pool the computed start index and
every index the scan can return are in bounds. -/
theorem C10_nonempty_precondition (s : ServerPool) :
    (s.backends.length = 0 → NextIndex s = none ∧ GetNextPeer s = none) ∧
    (0 < s.backends.length →
      ∃ s1 next, NextIndex s = some (s1, next) ∧ next < s.backends.length ∧
        ∀ s' r idx, GetNextPeer s = some (s', r) → r = some idx →
          idx < s.backends.length) := by
  constructor
  · intro h0
    constructor
    · simp [NextIndex, h0]
    · simp [GetNextPeer, NextIndex, h0]
  · intro h
    have hne : s.backends.length ≠ 0 := Nat.pos_iff_ne_zero.mp h
    refine ⟨{ s with current := (s.current + 1) % 2 ^ 64 },
      ((s.current + 1) % 2 ^ 64) % s.backends.length, ?_, Nat.mod_lt _ h, ?_⟩
    · simp [NextIndex, hne]
    · intro s' r idx hg hr
      obtain ⟨s'', heq, _, _, _⟩ := GetNextPeer_char s h
      rw [heq] at hg
      have hfa : firstAliveFrom s.backends (((s.current + 1) % 2 ^ 64) % s.backends.length)
          = r := congrArg Prod.snd (Option.some.inj hg)
      rw [hr] at hfa
      exact (firstAliveFrom_some _ _ _ h hfa).1

/-- Witness for C10: the empty pool panics; a concrete singleton pool has
all indices in bounds. -/
theorem C10_witness :
    (NextIndex ⟨[], 5⟩ = none ∧ GetNextPeer ⟨[], 5⟩ = none) ∧
    ∃ s1 next, NextIndex ⟨[⟨"w", true⟩], 0⟩ = some (s1, next) ∧ next < 1 ∧
      ∀ s' r idx, GetNextPeer ⟨[⟨"w", true⟩], 0⟩ = some (s', r) → r = some idx →
        idx < 1 :=
  ⟨(C10_nonempty_precondition ⟨[], 5⟩).1 rfl,
   (C10_nonempty_precondition ⟨[⟨"w", true⟩], 0⟩).2 (by decide)⟩

/-! ## Step lemmas for the dispatcher -/

theorem lb_guard (healthy : String → Bool) (pool : ServerPool) (ctx : ReqContext)
    (h : GetAttemptsFromContext ctx > 3) :
    lb healthy pool ctx = (pool, Response.serviceUnavailable, []) := by
  unfold lb
  rw [dif_pos h]

theorem lb_crashed (healthy : String → Bool) (pool : ServerPool) (ctx : ReqContext)
    (h : ¬ GetAttemptsFromContext ctx > 3) (hg : GetNextPeer pool = none) :
    lb healthy pool ctx = (pool, Response.crashed, []) := by
  unfold lb
  rw [dif_neg h, hg]

theorem lb_noPeer (healthy : String → Bool) (pool : ServerPool) (ctx : ReqContext)
    (s' : ServerPool) (h : ¬ GetAttemptsFromContext ctx > 3)
    (hg : GetNextPeer pool = some (s', none)) :
    lb healthy pool ctx = (s', Response.noResponse, []) := by
  unfold lb
  rw [dif_neg h, hg]

theorem lb_peer_fail (healthy : String → Bool) (pool : ServerPool) (ctx : ReqContext)
    (s' : ServerPool) (idx : Nat) (h : ¬ GetAttemptsFromContext ctx > 3)
    (hg : GetNextPeer pool = some (s', some idx))
    (hfail : healthy (urlAt s'.backends idx) = false) :
    lb healthy pool ctx = errorHandler healthy (urlAt s'.backends idx) s' ctx := by
  unfold lb
  rw [dif_neg h, hg]
  simp [hfail]

theorem lb_peer_ok (healthy : String → Bool) (pool : ServerPool) (ctx : ReqContext)
    (s' : ServerPool) (idx : Nat) (h : ¬ GetAttemptsFromContext ctx > 3)
    (hg : GetNextPeer pool = some (s', some idx))
    (hok : healthy (urlAt s'.backends idx) = true) :
    lb healthy pool ctx = (s', Response.fromBackend (urlAt s'.backends idx), []) := by
  unfold lb
  rw [dif_neg h, hg]
  simp [hok]

/-- The same-backend retry events generated while the retry counter climbs
from `r + 1` to `r + k`: each is the fixed 10 ms backoff followed by
re-invoking the same backend. -/
def retryTrace (u : String) (r : Nat) : Nat → List Event
  | 0 => []
  | k + 1 => Event.backoffAndRetry u 10 (r + 1) :: retryTrace u (r + 1) k

theorem retryTrace_eq_map (u : String) :
    ∀ k r, retryTrace u r k =
      (List.range k).map fun j => Event.backoffAndRetry u 10 (r + 1 + j) := by
  intro k
  induction k with
  | zero => intro r; simp [retryTrace]
  | succ m ih =>
    intro r
    rw [List.range_succ_eq_map]
    simp only [retryTrace, ih (r + 1), List.map_cons, List.map_map]
    congr 1
    apply List.map_congr_left
    intro j _
    simp only [Function.comp]
    congr 1
    omega

/-- The complete behaviour of `errorHandler` on a backend that fails every
attempt, for any arrival value `3 - k` of the retry counter: exactly `k`
same-backend retries (each a 10 ms backoff that only bumps the retry
counter), after which the backend is marked dead in the — until then
untouched — pool, the attempt counter is incremented once, and `lb` is
re-entered with the retry value still 3. -/
theorem errorHandler_chain (healthy : String → Bool) (u : String)
    (hfail : healthy u = false) :
    ∀ k (pool : ServerPool) (ctx : ReqContext), GetRetryFromContext ctx = 3 - k → k ≤ 3 →
      errorHandler healthy u pool ctx =
        ((lb healthy (MarkBackendStatus pool u false)
            ⟨some (GetAttemptsFromContext ctx + 1), some 3⟩).1,
         (lb healthy (MarkBackendStatus pool u false)
            ⟨some (GetAttemptsFromContext ctx + 1), some 3⟩).2.1,
         retryTrace u (GetRetryFromContext ctx) k ++
           Event.markDead u :: Event.redispatch (GetAttemptsFromContext ctx + 1) ::
             (lb healthy (MarkBackendStatus pool u false)
               ⟨some (GetAttemptsFromContext ctx + 1), some 3⟩).2.2) := by
  intro k
  induction k with
  | zero =>
    intro pool ctx hr _
    have hr3 : GetRetryFromContext ctx = 3 := by omega
    have hretry : ctx.retry = some 3 := by
      cases hctx : ctx.retry with
      | none => rw [GetRetryFromContext, hctx] at hr3; simp at hr3
      | some v =>
        rw [GetRetryFromContext, hctx] at hr3
        simp only [Option.getD_some] at hr3
        rw [hr3]
    unfold errorHandler
    rw [dif_neg (by omega)]
    have hctx1 : ({ ctx with attempts := some (GetAttemptsFromContext ctx + 1) } : ReqContext)
        = ⟨some (GetAttemptsFromContext ctx + 1), some 3⟩ := by
      cases ctx
      simp only [ReqContext.mk.injEq, true_and]
      exact hretry
    rw [hctx1]
    simp [retryTrace]
  | succ m ih =>
    intro pool ctx hr hk
    have hrlt : GetRetryFromContext ctx < 3 := by omega
    unfold errorHandler
    rw [dif_pos hrlt]
    simp only [hfail, Bool.false_eq_true, if_false]
    have hih := ih pool { ctx with retry := some (GetRetryFromContext ctx + 1) }
      (by
        have hr' : ctx.retry.getD 0 = 3 - (m + 1) := hr
        simp only [GetRetryFromContext, Option.getD_some]
        omega)
      (by omega)
    have hatt : GetAttemptsFromContext { ctx with retry := some (GetRetryFromContext ctx + 1) }
        = GetAttemptsFromContext ctx := rfl
    rw [hih, hatt]
    have hr1 : GetRetryFromContext { ctx with retry := some (GetRetryFromContext ctx + 1) }
        = GetRetryFromContext ctx + 1 := by simp [GetRetryFromContext]
    rw [hr1]
    have htr : retryTrace u (GetRetryFromContext ctx) (m + 1) =
        Event.backoffAndRetry u 10 (GetRetryFromContext ctx + 1) ::
          retryTrace u (GetRetryFromContext ctx + 1) m := rfl
    rw [htr]
    simp

theorem errorHandler_retry_ok (healthy : String → Bool) (u : String) (pool : ServerPool)
    (ctx : ReqContext) (h : GetRetryFromContext ctx < 3) (hok : healthy u = true) :
    errorHandler healthy u pool ctx =
      (pool, Response.fromBackend u,
        [Event.backoffAndRetry u 10 (GetRetryFromContext ctx + 1)]) := by
  conv_lhs => unfold errorHandler
  rw [dif_pos h]
  simp [hok]

theorem errorHandler_retry_fail (healthy : String → Bool) (u : String) (pool : ServerPool)
    (ctx : ReqContext) (h : GetRetryFromContext ctx < 3) (hfail : healthy u = false) :
    errorHandler healthy u pool ctx =
      ((errorHandler healthy u pool { ctx with retry := some (GetRetryFromContext ctx + 1) }).1,
       (errorHandler healthy u pool { ctx with retry := some (GetRetryFromContext ctx + 1) }).2.1,
       Event.backoffAndRetry u 10 (GetRetryFromContext ctx + 1) ::
         (errorHandler healthy u pool
           { ctx with retry := some (GetRetryFromContext ctx + 1) }).2.2) := by
  conv_lhs => unfold errorHandler
  rw [dif_pos h]
  simp [hfail]

theorem errorHandler_failover (healthy : String → Bool) (u : String) (pool : ServerPool)
    (ctx : ReqContext) (h : ¬ GetRetryFromContext ctx < 3) :
    errorHandler healthy u pool ctx =
      ((lb healthy (MarkBackendStatus pool u false)
          { ctx with attempts := some (GetAttemptsFromContext ctx + 1) }).1,
       (lb healthy (MarkBackendStatus pool u false)
          { ctx with attempts := some (GetAttemptsFromContext ctx + 1) }).2.1,
       Event.markDead u :: Event.redispatch (GetAttemptsFromContext ctx + 1) ::
         (lb healthy (MarkBackendStatus pool u false)
           { ctx with attempts := some (GetAttemptsFromContext ctx + 1) }).2.2) := by
  conv_lhs => unfold errorHandler
  rw [dif_neg h]

mutual

/-- Fuel-indexed executable twin of `lb`, used only so that concrete runs
can be evaluated inside the kernel (the well-founded `lb` does not reduce
there); `lb_eq_lbFuel` proves the twins agree whenever the fuel is at least
the termination measure.  Fuel is consumed only on the retry/failover
cycle. -/
def lbFuel : Nat → (String → Bool) → ServerPool → ReqContext →
    ServerPool × Response × List Event
  | fuel, healthy, pool, ctx =>
    if GetAttemptsFromContext ctx > 3 then
      (pool, Response.serviceUnavailable, [])
    else
      match GetNextPeer pool with
      | none => (pool, Response.crashed, [])
      | some (pool1, none) => (pool1, Response.noResponse, [])
      | some (pool1, some idx) =>
        let u := urlAt pool1.backends idx
        if healthy u then (pool1, Response.fromBackend u, [])
        else
          match fuel with
          | 0 => (pool1, Response.crashed, [])
          | fuel + 1 => errorHandlerFuel fuel healthy u pool1 ctx

/-- Fuel-indexed executable twin of `errorHandler`. -/
def errorHandlerFuel : Nat → (String → Bool) → String → ServerPool → ReqContext →
    ServerPool × Response × List Event
  | fuel, healthy, u, pool, ctx =>
    if GetRetryFromContext ctx < 3 then
      match fuel with
      | 0 => (pool, Response.crashed, [])
      | fuel + 1 =>
        let out := if healthy u then (pool, Response.fromBackend u, ([] : List Event))
                   else errorHandlerFuel fuel healthy u pool
                     { ctx with retry := some (GetRetryFromContext ctx + 1) }
        (out.1, out.2.1, Event.backoffAndRetry u 10 (GetRetryFromContext ctx + 1) :: out.2.2)
    else
      match fuel with
      | 0 => (pool, Response.crashed, [])
      | fuel + 1 =>
        let out := lbFuel fuel healthy (MarkBackendStatus pool u false)
          { ctx with attempts := some (GetAttemptsFromContext ctx + 1) }
        (out.1, out.2.1,
          Event.markDead u :: Event.redispatch (GetAttemptsFromContext ctx + 1) :: out.2.2)

end

/-- The twins agree whenever the fuel dominates the termination measure. -/
theorem lb_eq_fuel : ∀ fuel,
    (∀ healthy pool ctx, ctxMeasureLB ctx ≤ fuel →
      lb healthy pool ctx = lbFuel fuel healthy pool ctx) ∧
    (∀ healthy u pool ctx, ctxMeasureEH ctx ≤ fuel →
      errorHandler healthy u pool ctx = errorHandlerFuel fuel healthy u pool ctx) := by
  intro fuel
  induction fuel with
  | zero =>
    constructor
    · intro healthy pool ctx hle
      have hgt : GetAttemptsFromContext ctx > 3 := by
        by_cases hc : GetAttemptsFromContext ctx > 3
        · exact hc
        · simp [ctxMeasureLB, hc] at hle
      rw [lb_guard _ _ _ hgt, lbFuel, if_pos hgt]
    · intro healthy u pool ctx hle
      exfalso
      simp [ctxMeasureEH] at hle
  | succ n ihn =>
    constructor
    · intro healthy pool ctx hle
      by_cases hgt : GetAttemptsFromContext ctx > 3
      · rw [lb_guard _ _ _ hgt, lbFuel, if_pos hgt]
      · cases hg : GetNextPeer pool with
        | none => rw [lb_crashed _ _ _ hgt hg, lbFuel, if_neg hgt, hg]
        | some pr =>
          obtain ⟨pool1, r⟩ := pr
          cases r with
          | none => rw [lb_noPeer _ _ _ _ hgt hg, lbFuel, if_neg hgt, hg]
          | some idx =>
            by_cases hok : healthy (urlAt pool1.backends idx)
            · rw [lb_peer_ok _ _ _ _ _ hgt hg hok, lbFuel, if_neg hgt, hg]
              simp [hok]
            · have hfail : healthy (urlAt pool1.backends idx) = false := by
                simpa using hok
              rw [lb_peer_fail _ _ _ _ _ hgt hg hfail, lbFuel, if_neg hgt, hg]
              simp only [hfail, Bool.false_eq_true, if_false, ite_false]
              apply ihn.2
              simp only [ctxMeasureLB, hgt, if_false, ite_false] at hle
              simp only [ctxMeasureEH]
              omega
    · intro healthy u pool ctx hle
      by_cases hr : GetRetryFromContext ctx < 3
      · by_cases hok : healthy u
        · rw [errorHandler_retry_ok _ _ _ _ hr hok, errorHandlerFuel, if_pos hr]
          simp [hok]
        · have hfail : healthy u = false := by simpa using hok
          rw [errorHandler_retry_fail _ _ _ _ hr hfail, errorHandlerFuel, if_pos hr]
          simp only [hfail, Bool.false_eq_true, if_false, ite_false]
          have hmu : ctxMeasureEH { ctx with retry := some (GetRetryFromContext ctx + 1) }
              ≤ n := by
            simp only [GetRetryFromContext] at hr
            simp [ctxMeasureEH, GetAttemptsFromContext, GetRetryFromContext] at hle ⊢
            omega
          rw [ihn.2 healthy u pool _ hmu]
      · rw [errorHandler_failover _ _ _ _ hr, errorHandlerFuel, if_neg hr]
        have hmu : ctxMeasureLB { ctx with attempts := some (GetAttemptsFromContext ctx + 1) }
            ≤ n := by
          simp only [ctxMeasureLB, ctxMeasureEH, GetAttemptsFromContext, GetRetryFromContext,
            Option.getD_some] at hle ⊢
          split <;> omega
        rw [ihn.1 healthy _ _ hmu]

/-! ## Claim theorems: retry / failover policy (C2, C3, C4) -/

/-- Claim C2, amended: on the Retrying → Failover transition (the failure
arriving with the retry counter at 3), the handler marks the current
backend dead via `MarkBackendStatus(address, false)`, increments `attempts`
by 1, and re-enters the dispatcher — but with the context's `Retry` value
left unchanged at 3, not reset to 0, so a newly selected backend gets no
same-backend retries. -/
theorem C2_failover_keeps_retries (healthy : String → Bool) (u : String)
    (pool : ServerPool) (ctx : ReqContext) (h3 : GetRetryFromContext ctx = 3) :
    errorHandler healthy u pool ctx =
      ((lb healthy (MarkBackendStatus pool u false)
          { ctx with attempts := some (GetAttemptsFromContext ctx + 1) }).1,
       (lb healthy (MarkBackendStatus pool u false)
          { ctx with attempts := some (GetAttemptsFromContext ctx + 1) }).2.1,
       Event.markDead u :: Event.redispatch (GetAttemptsFromContext ctx + 1) ::
         (lb healthy (MarkBackendStatus pool u false)
           { ctx with attempts := some (GetAttemptsFromContext ctx + 1) }).2.2) ∧
    GetRetryFromContext { ctx with attempts := some (GetAttemptsFromContext ctx + 1) } = 3 ∧
    GetAttemptsFromContext { ctx with attempts := some (GetAttemptsFromContext ctx + 1) } =
      GetAttemptsFromContext ctx + 1 :=
  ⟨errorHandler_failover healthy u pool ctx (by omega), h3, rfl⟩

/-- Witness for C2 (amended), at a concrete two-backend pool with the retry
counter at its cap. -/
theorem C2_witness :
    errorHandler (fun _ => false) "b1" ⟨[⟨"b1", true⟩, ⟨"b2", true⟩], 0⟩ ⟨some 1, some 3⟩ =
      ((lb (fun _ => false)
          (MarkBackendStatus ⟨[⟨"b1", true⟩, ⟨"b2", true⟩], 0⟩ "b1" false) ⟨some 2, some 3⟩).1,
       (lb (fun _ => false)
          (MarkBackendStatus ⟨[⟨"b1", true⟩, ⟨"b2", true⟩], 0⟩ "b1" false) ⟨some 2, some 3⟩).2.1,
       Event.markDead "b1" :: Event.redispatch 2 ::
         (lb (fun _ => false)
           (MarkBackendStatus ⟨[⟨"b1", true⟩, ⟨"b2", true⟩], 0⟩ "b1" false)
           ⟨some 2, some 3⟩).2.2) ∧
    GetRetryFromContext ⟨some 2, some 3⟩ = 3 ∧
    GetAttemptsFromContext ⟨some 2, some 3⟩ = 2 := by
  exact C2_failover_keeps_retries (fun _ => false) "b1" ⟨[⟨"b1", true⟩, ⟨"b2", true⟩], 0⟩
    ⟨some 1, some 3⟩ rfl

/-- Counterexample to C2 as stated: after the failover from `"b1"`, the
re-entered dispatcher selects `"b2"` and the context still carries
`Retry = 3`, so `"b2"` is marked dead on its very first failure — the trace
contains no `backoffAndRetry` event for `"b2"` at all, refuting "a fresh
retries counter reset to 0" and "the full retry budget". -/
theorem C2_counterexample :
    (errorHandler (fun _ => false) "b1" ⟨[⟨"b1", true⟩, ⟨"b2", true⟩], 0⟩
        ⟨some 1, some 3⟩).2.2 =
      [Event.markDead "b1", Event.redispatch 2, Event.markDead "b2", Event.redispatch 3] ∧
    GetRetryFromContext ⟨some 2, some 3⟩ ≠ 0 ∧
    List.countP (fun e => match e with
        | Event.backoffAndRetry "b2" _ _ => true
        | _ => false)
      [Event.markDead "b1", Event.redispatch 2, Event.markDead "b2", Event.redispatch 3]
      = 0 := by
  refine ⟨?_, by decide, by decide⟩
  rw [(lb_eq_fuel 20).2 _ _ _ _ (by decide)]
  decide

/-- Claim C3, amended: with a single always-failing backend, the request is
retried 3 times, the backend is marked dead, the dispatcher is re-entered
with `attempts = 2` and `GetNextPeer` returns `nil` — whereupon `lb` skips
forwarding and returns without writing anything: the client gets no
response at all (the 503 guard is only reached when `attempts > 3`). -/
theorem C3_single_backend_no_response :
    lb (fun _ => false) ⟨[⟨"solo", true⟩], 0⟩ ⟨none, none⟩ =
      (⟨[⟨"solo", false⟩], 2⟩, Response.noResponse,
        [Event.backoffAndRetry "solo" 10 1, Event.backoffAndRetry "solo" 10 2,
         Event.backoffAndRetry "solo" 10 3, Event.markDead "solo", Event.redispatch 2]) ∧
    GetNextPeer ⟨[⟨"solo", false⟩], 1⟩ = some (⟨[⟨"solo", false⟩], 2⟩, none) := by
  constructor
  · rw [(lb_eq_fuel 20).1 _ _ _ (by decide)]
    decide
  · decide

/-- Counterexample to C3 as stated: in the single-backend always-failing
scenario the client does not receive a service-unavailable response. -/
theorem C3_counterexample :
    (lb (fun _ => false) ⟨[⟨"solo", true⟩], 0⟩ ⟨none, none⟩).2.1 ≠
      Response.serviceUnavailable := by
  rw [(lb_eq_fuel 20).1 _ _ _ (by decide)]
  decide

/-- Claim C4, amended: a backend that fails every proxy attempt is retried
exactly `3 - r` times, where `r ≤ 3` is the request's retry counter when it
reaches that backend (3 retries for a fresh request, 0 for a backend
selected after a failover, since the counter arrives still at 3) — each
retry is the fixed 10 ms backoff re-invoking the same backend with only the
retry counter incremented; the pool is first mutated by the `markDead` of
the following failure (applied to the original pool, so no pool mutation
during the retries), and `attempts` is incremented exactly once, at the
failover. -/
theorem C4_retry_budget (healthy : String → Bool) (u : String) (pool : ServerPool)
    (ctx : ReqContext) (hfail : healthy u = false)
    (hr : GetRetryFromContext ctx ≤ 3) :
    errorHandler healthy u pool ctx =
      ((lb healthy (MarkBackendStatus pool u false)
          ⟨some (GetAttemptsFromContext ctx + 1), some 3⟩).1,
       (lb healthy (MarkBackendStatus pool u false)
          ⟨some (GetAttemptsFromContext ctx + 1), some 3⟩).2.1,
       ((List.range (3 - GetRetryFromContext ctx)).map fun j =>
           Event.backoffAndRetry u 10 (GetRetryFromContext ctx + 1 + j)) ++
         Event.markDead u :: Event.redispatch (GetAttemptsFromContext ctx + 1) ::
           (lb healthy (MarkBackendStatus pool u false)
             ⟨some (GetAttemptsFromContext ctx + 1), some 3⟩).2.2) := by
  have h := errorHandler_chain healthy u hfail (3 - GetRetryFromContext ctx) pool ctx
    (by omega) (by omega)
  rw [h, retryTrace_eq_map]

/-- Witness for C4 (amended): a fresh request (retry counter 0) against an
always-failing backend gets exactly 3 retries before the mark-dead. -/
theorem C4_witness :
    errorHandler (fun _ => false) "w" ⟨[⟨"w", true⟩], 0⟩ ⟨none, none⟩ =
      ((lb (fun _ => false) (MarkBackendStatus ⟨[⟨"w", true⟩], 0⟩ "w" false)
          ⟨some 2, some 3⟩).1,
       (lb (fun _ => false) (MarkBackendStatus ⟨[⟨"w", true⟩], 0⟩ "w" false)
          ⟨some 2, some 3⟩).2.1,
       ((List.range 3).map fun j => Event.backoffAndRetry "w" 10 (1 + j)) ++
         Event.markDead "w" :: Event.redispatch 2 ::
           (lb (fun _ => false) (MarkBackendStatus ⟨[⟨"w", true⟩], 0⟩ "w" false)
             ⟨some 2, some 3⟩).2.2) := by
  exact C4_retry_budget (fun _ => false) "w" ⟨[⟨"w", true⟩], 0⟩ ⟨none, none⟩ rfl (by decide)

/-- Counterexample to C4 as stated ("exactly 3 times ... never fewer"): in
a two-backend pool where both backends fail every attempt, the second
backend (`"a"`, selected after the failover from `"b"`) is marked dead with
zero preceding retries. -/
theorem C4_counterexample :
    (lb (fun _ => false) ⟨[⟨"a", true⟩, ⟨"b", true⟩], 0⟩ ⟨none, none⟩).2.2 =
      [Event.backoffAndRetry "b" 10 1, Event.backoffAndRetry "b" 10 2,
       Event.backoffAndRetry "b" 10 3, Event.markDead "b", Event.redispatch 2,
       Event.markDead "a", Event.redispatch 3] ∧
    Event.markDead "a" ∈
      [Event.backoffAndRetry "b" 10 1, Event.backoffAndRetry "b" 10 2,
       Event.backoffAndRetry "b" 10 3, Event.markDead "b", Event.redispatch 2,
       Event.markDead "a", Event.redispatch 3] ∧
    List.countP (fun e => match e with
        | Event.backoffAndRetry "a" _ _ => true
        | _ => false)
      [Event.backoffAndRetry "b" 10 1, Event.backoffAndRetry "b" 10 2,
       Event.backoffAndRetry "b" 10 3, Event.markDead "b", Event.redispatch 2,
       Event.markDead "a", Event.redispatch 3] = 0 := by
  refine ⟨?_, by decide, by decide⟩
  rw [(lb_eq_fuel 20).1 _ _ _ (by decide)]
  decide

/-! ## Pool-mutation lemmas for the failover chain -/

theorem markFirst_length (bs : List Backend) (u : String) (a : Bool) :
    (markFirst bs u a).length = bs.length := by
  induction bs with
  | nil => rfl
  | cons b rest ih =>
    by_cases h : b.url = u <;> simp [markFirst, h, ih]

theorem markFirst_map_url (bs : List Backend) (u : String) (a : Bool) :
    (markFirst bs u a).map Backend.url = bs.map Backend.url := by
  induction bs with
  | nil => rfl
  | cons b rest ih =>
    by_cases h : b.url = u <;> simp [markFirst, h, ih, SetAlive]

theorem urlAt_cons_zero (b : Backend) (l : List Backend) : urlAt (b :: l) 0 = b.url := by
  simp [urlAt]

theorem urlAt_cons_succ (b : Backend) (l : List Backend) (j : Nat) :
    urlAt (b :: l) (j + 1) = urlAt l j := by
  simp [urlAt]

theorem isAliveAt_cons_zero (b : Backend) (l : List Backend) :
    isAliveAt (b :: l) 0 = IsAlive b := by
  simp [isAliveAt]

theorem isAliveAt_cons_succ (b : Backend) (l : List Backend) (j : Nat) :
    isAliveAt (b :: l) (j + 1) = isAliveAt l j := by
  simp [isAliveAt]

theorem markFirst_cons_pos (b : Backend) (rest : List Backend) (u : String) (a : Bool)
    (h : b.url = u) : markFirst (b :: rest) u a = SetAlive b a :: rest := by
  simp [markFirst, h]

theorem markFirst_cons_neg (b : Backend) (rest : List Backend) (u : String) (a : Bool)
    (h : ¬ b.url = u) : markFirst (b :: rest) u a = b :: markFirst rest u a := by
  simp [markFirst, h]

theorem urlAt_markFirst (bs : List Backend) (u : String) (a : Bool) :
    ∀ i, urlAt (markFirst bs u a) i = urlAt bs i := by
  induction bs with
  | nil => intro i; rfl
  | cons b rest ih =>
    intro i
    by_cases h : b.url = u
    · rw [markFirst_cons_pos b rest u a h]
      cases i with
      | zero => rw [urlAt_cons_zero, urlAt_cons_zero]; rfl
      | succ j => rw [urlAt_cons_succ, urlAt_cons_succ]
    · rw [markFirst_cons_neg b rest u a h]
      cases i with
      | zero => rw [urlAt_cons_zero, urlAt_cons_zero]
      | succ j => rw [urlAt_cons_succ, urlAt_cons_succ, ih]

theorem urlAt_getElem (bs : List Backend) (i : Nat) (hi : i < bs.length) :
    urlAt bs i = (bs.get ⟨i, hi⟩).url := by
  simp [urlAt, List.getElem?_eq_getElem hi]

theorem urlAt_mem (bs : List Backend) (i : Nat) (hi : i < bs.length) :
    urlAt bs i ∈ bs.map Backend.url := by
  rw [urlAt_getElem bs i hi]
  exact List.mem_map_of_mem _ (bs.get_mem i hi)

theorem urlAt_inj (bs : List Backend) (hnd : (bs.map Backend.url).Nodup) {i j : Nat}
    (hi : i < bs.length) (hj : j < bs.length) (heq : urlAt bs i = urlAt bs j) : i = j := by
  rw [urlAt_getElem bs i hi, urlAt_getElem bs j hj] at heq
  have hi2 : i < (bs.map Backend.url).length := by simpa
  have hj2 : j < (bs.map Backend.url).length := by simpa
  have hg : (bs.map Backend.url).get ⟨i, hi2⟩ = (bs.map Backend.url).get ⟨j, hj2⟩ := by
    simpa [List.get_eq_getElem, List.getElem_map] using heq
  have hfin := (List.Nodup.get_inj_iff hnd).mp hg
  simpa using hfin

theorem isAliveAt_of_forall (bs : List Backend)
    (hall : ∀ b ∈ bs, IsAlive b = true) (i : Nat) (hi : i < bs.length) :
    isAliveAt bs i = true := by
  simp only [isAliveAt, List.getElem?_eq_getElem hi]
  exact hall _ (List.getElem_mem _)

theorem isAliveAt_lt (bs : List Backend) (i : Nat) (h : isAliveAt bs i = true) :
    i < bs.length := by
  by_contra hc
  have hnone : bs[i]? = none := List.getElem?_eq_none (by omega)
  simp [isAliveAt, hnone] at h

theorem exists_alive_mem (bs : List Backend) (i : Nat) (h : isAliveAt bs i = true) :
    ∃ b ∈ bs, IsAlive b = true := by
  cases hg : bs[i]? with
  | none => simp [isAliveAt, hg] at h
  | some b => exact ⟨b, List.getElem?_mem hg, by simpa [isAliveAt, hg] using h⟩

theorem isAliveAt_markFirst_of_ne (bs : List Backend) (u : String) (a : Bool) :
    ∀ i, urlAt bs i ≠ u → isAliveAt (markFirst bs u a) i = isAliveAt bs i := by
  induction bs with
  | nil => intro i _; rfl
  | cons b rest ih =>
    intro i hne
    by_cases h : b.url = u
    · cases i with
      | zero => exact absurd (by rw [urlAt_cons_zero]; exact h) hne
      | succ j =>
        rw [markFirst_cons_pos b rest u a h, isAliveAt_cons_succ, isAliveAt_cons_succ]
    · rw [markFirst_cons_neg b rest u a h]
      cases i with
      | zero => rw [isAliveAt_cons_zero, isAliveAt_cons_zero]
      | succ j =>
        rw [isAliveAt_cons_succ, isAliveAt_cons_succ]
        exact ih j (by rw [← urlAt_cons_succ b rest j]; exact hne)

theorem isAliveAt_markFirst_mono (bs : List Backend) (u : String) :
    ∀ i, isAliveAt (markFirst bs u false) i = true → isAliveAt bs i = true := by
  induction bs with
  | nil => intro i h; exact h
  | cons b rest ih =>
    intro i h
    by_cases hb : b.url = u
    · rw [markFirst_cons_pos b rest u false hb] at h
      cases i with
      | zero =>
        rw [isAliveAt_cons_zero] at h
        simp [SetAlive, IsAlive] at h
      | succ j =>
        rw [isAliveAt_cons_succ] at h
        rw [isAliveAt_cons_succ]
        exact h
    · rw [markFirst_cons_neg b rest u false hb] at h
      cases i with
      | zero =>
        rw [isAliveAt_cons_zero] at h
        rw [isAliveAt_cons_zero]
        exact h
      | succ j =>
        rw [isAliveAt_cons_succ] at h
        rw [isAliveAt_cons_succ]
        exact ih j h

theorem isAliveAt_markFirst_self (bs : List Backend) (u : String) :
    ∀ i, (bs.map Backend.url).Nodup → i < bs.length → urlAt bs i = u →
      isAliveAt (markFirst bs u false) i = false := by
  induction bs with
  | nil => intro i _ hi _; simp at hi
  | cons b rest ih =>
    intro i hnd hi hu
    cases i with
    | zero =>
      have hb : b.url = u := by rw [← urlAt_cons_zero b rest]; exact hu
      rw [markFirst_cons_pos b rest u false hb, isAliveAt_cons_zero]
      simp [SetAlive, IsAlive]
    | succ j =>
      have hju : urlAt rest j = u := by rw [← urlAt_cons_succ b rest j]; exact hu
      have hjlt : j < rest.length := by simpa using hi
      have hb : b.url ≠ u := by
        intro hc
        have hmem : u ∈ rest.map Backend.url := by
          rw [← hju]
          exact urlAt_mem rest j hjlt
        rw [List.map_cons, List.nodup_cons] at hnd
        exact hnd.1 (hc ▸ hmem)
      rw [markFirst_cons_neg b rest u false hb, isAliveAt_cons_succ]
      exact ih j (by rw [List.map_cons, List.nodup_cons] at hnd; exact hnd.2) hjlt hju

/-- As long as some backend is alive, `GetNextPeer` returns a peer, that
peer is alive, and the backend list is unchanged. -/
theorem GetNextPeer_of_exists_alive (s : ServerPool) (h : 0 < s.backends.length)
    (i0 : Nat) (ha0 : isAliveAt s.backends i0 = true) :
    ∃ s' idx, GetNextPeer s = some (s', some idx) ∧ s'.backends = s.backends ∧
      isAliveAt s.backends idx = true := by
  obtain ⟨s', heq, hbk, _, _⟩ := GetNextPeer_char s h
  cases hfa : firstAliveFrom s.backends (((s.current + 1) % 2 ^ 64) % s.backends.length) with
  | none =>
    exfalso
    have hdead := (firstAliveFrom_eq_none_iff s.backends _ h).mp hfa
    obtain ⟨b, hb, hab⟩ := exists_alive_mem s.backends i0 ha0
    rw [hdead b hb] at hab
    exact Bool.false_ne_true hab
  | some idx =>
    rw [hfa] at heq
    exact ⟨s', idx, heq, hbk, (firstAliveFrom_some _ _ idx h hfa).2⟩

/-- Recognizes the `markDead` events of a trace: each one is one failover,
i.e. one distinct backend given up on (under the one-record-per-address
invariant and an always-failing upstream, the marked backends are exactly
the backends the request was routed to). -/
def isMarkDeadEvent : Event → Bool
  | Event.markDead _ => true
  | _ => false

/-- The fuel twins never emit more than `4 - attempts` markDead events: each
failover increments the context's attempt counter and the dispatcher stops
past 3. -/
theorem markDead_count_fuel : ∀ fuel,
    (∀ (healthy : String → Bool) (pool : ServerPool) (ctx : ReqContext),
      List.countP isMarkDeadEvent (lbFuel fuel healthy pool ctx).2.2 ≤
        4 - GetAttemptsFromContext ctx) ∧
    (∀ (healthy : String → Bool) (u : String) (pool : ServerPool) (ctx : ReqContext),
      GetAttemptsFromContext ctx ≤ 3 →
      List.countP isMarkDeadEvent (errorHandlerFuel fuel healthy u pool ctx).2.2 ≤
        4 - GetAttemptsFromContext ctx) := by
  intro fuel
  induction fuel with
  | zero =>
    constructor
    · intro healthy pool ctx
      rw [lbFuel]
      split
      · simp
      · split
        · simp
        · simp
        · rename_i pool1 idx _heq
          show List.countP isMarkDeadEvent
            ((if healthy (urlAt pool1.backends idx) = true then
                (pool1, Response.fromBackend (urlAt pool1.backends idx), ([] : List Event))
              else (pool1, Response.crashed, ([] : List Event)))).2.2 ≤
            4 - GetAttemptsFromContext ctx
          split <;> simp
    · intro healthy u pool ctx _
      rw [errorHandlerFuel]
      split <;> simp
  | succ n ihn =>
    obtain ⟨ihL, ihE⟩ := ihn
    constructor
    · intro healthy pool ctx
      rw [lbFuel]
      split
      · simp
      · rename_i hgt
        split
        · simp
        · simp
        · rename_i pool1 idx _heq
          show List.countP isMarkDeadEvent
            ((if healthy (urlAt pool1.backends idx) = true then
                (pool1, Response.fromBackend (urlAt pool1.backends idx), ([] : List Event))
              else errorHandlerFuel n healthy (urlAt pool1.backends idx) pool1 ctx)).2.2 ≤
            4 - GetAttemptsFromContext ctx
          split
          · simp
          · exact ihE healthy _ pool1 ctx (by omega)
    · intro healthy u pool ctx ha
      rw [errorHandlerFuel]
      split
      · rename_i hr
        show List.countP isMarkDeadEvent
          (Event.backoffAndRetry u 10 (GetRetryFromContext ctx + 1) ::
            (if healthy u = true then (pool, Response.fromBackend u, ([] : List Event))
             else errorHandlerFuel n healthy u pool
               { ctx with retry := some (GetRetryFromContext ctx + 1) }).2.2) ≤
          4 - GetAttemptsFromContext ctx
        rw [List.countP_cons]
        simp only [isMarkDeadEvent, Bool.false_eq_true, if_false, Nat.add_zero]
        split
        · simp
        · exact ihE healthy u pool _ ha
      · rename_i hr
        show List.countP isMarkDeadEvent
          (Event.markDead u :: Event.redispatch (GetAttemptsFromContext ctx + 1) ::
            (lbFuel n healthy (MarkBackendStatus pool u false)
              { ctx with attempts := some (GetAttemptsFromContext ctx + 1) }).2.2) ≤
          4 - GetAttemptsFromContext ctx
        rw [List.countP_cons, List.countP_cons]
        simp only [isMarkDeadEvent, Bool.false_eq_true, if_false, if_true, Nat.add_zero]
        have hbound := ihL healthy (MarkBackendStatus pool u false)
          { ctx with attempts := some (GetAttemptsFromContext ctx + 1) }
        have hG : GetAttemptsFromContext
            { ctx with attempts := some (GetAttemptsFromContext ctx + 1) } =
            GetAttemptsFromContext ctx + 1 := by
          simp [GetAttemptsFromContext]
        rw [hG] at hbound
        omega

/-- Transfer of the markDead bound to `lb` itself. -/
theorem markDead_count_le (healthy : String → Bool) (pool : ServerPool)
    (ctx : ReqContext) :
    List.countP isMarkDeadEvent (lb healthy pool ctx).2.2 ≤
      4 - GetAttemptsFromContext ctx := by
  rw [(lb_eq_fuel (ctxMeasureLB ctx)).1 healthy pool ctx (Nat.le_refl _)]
  exact (markDead_count_fuel (ctxMeasureLB ctx)).1 healthy pool ctx

/-- From a pool whose alive backends number at least `n`, `n` pairwise
distinct alive indices can be drawn. -/
theorem exists_alive_indices (bs : List Backend) :
    ∀ n, n ≤ (bs.filter fun b => IsAlive b).length →
      ∃ l : List Nat, l.length = n ∧ l.Nodup ∧ ∀ i ∈ l, isAliveAt bs i = true := by
  induction bs with
  | nil =>
    intro n hn
    simp only [List.filter_nil, List.length_nil, Nat.le_zero] at hn
    exact ⟨[], by simp [hn], List.nodup_nil, by simp⟩
  | cons b rest ih =>
    intro n hn
    by_cases hb : IsAlive b = true
    · cases n with
      | zero => exact ⟨[], rfl, List.nodup_nil, by simp⟩
      | succ m =>
        have hm : m ≤ (rest.filter fun x => IsAlive x).length := by
          simp only [List.filter_cons, hb, if_true, List.length_cons] at hn
          omega
        obtain ⟨l, hlen, hnd, hal⟩ := ih m hm
        refine ⟨0 :: l.map (· + 1), by simp [hlen], ?_, ?_⟩
        · rw [List.nodup_cons]
          refine ⟨by simp, ?_⟩
          exact List.Nodup.map (fun a b hab => by omega) hnd
        · intro i hi
          rcases List.mem_cons.mp hi with h0 | hmem
          · rw [h0, isAliveAt_cons_zero]
            exact hb
          · obtain ⟨j, hj, rfl⟩ := List.mem_map.mp hmem
            rw [show j + 1 = j + 1 from rfl, isAliveAt_cons_succ]
            exact hal j hj
    · have hb' : IsAlive b = false := by simpa using hb
      have hm : n ≤ (rest.filter fun x => IsAlive x).length := by
        simp only [List.filter_cons, hb', Bool.false_eq_true, if_false] at hn
        exact hn
      obtain ⟨l, hlen, hnd, hal⟩ := ih n hm
      refine ⟨l.map (· + 1), by simp [hlen],
        List.Nodup.map (fun a b hab => by omega) hnd, ?_⟩
      intro i hi
      obtain ⟨j, hj, rfl⟩ := List.mem_map.mp hi
      rw [isAliveAt_cons_succ]
      exact hal j hj

/-- Specialization: at least 3 alive backends yield 3 pairwise distinct
alive indices. -/
theorem exists_three_alive (bs : List Backend)
    (h : 3 ≤ (bs.filter fun b => IsAlive b).length) :
    ∃ a1 a2 a3, a1 ≠ a2 ∧ a1 ≠ a3 ∧ a2 ≠ a3 ∧
      isAliveAt bs a1 = true ∧ isAliveAt bs a2 = true ∧ isAliveAt bs a3 = true := by
  obtain ⟨l, hlen, hnd, hal⟩ := exists_alive_indices bs 3 h
  cases l with
  | nil => simp at hlen
  | cons x l1 =>
    cases l1 with
    | nil => simp at hlen
    | cons y l2 =>
      cases l2 with
      | nil => simp at hlen
      | cons z l3 =>
        cases l3 with
        | cons w l4 => simp at hlen
        | nil =>
          rw [List.nodup_cons, List.nodup_cons] at hnd
          refine ⟨x, y, z, ?_, ?_, ?_, hal x (by simp), hal y (by simp), hal z (by simp)⟩
          · intro hc
            exact hnd.1 (by simp [hc])
          · intro hc
            exact hnd.1 (by simp [hc])
          · intro hc
            exact hnd.2.1 (by simp [hc])

/-- Claim C5, amended: a request whose context `attempts` value exceeds 3
(absent defaults to 1) is answered with service-unavailable immediately,
with the pool untouched and no pool call made (empty trace).  A request is
never routed to more than 3 distinct backends: every run's trace carries at
most `4 - attempts` markDead (failover) events, hence at most 3 for a fresh
request, against any pool and any upstream behaviour.  And whenever at
least 3 of the pool's backends are alive (pool addresses pairwise distinct,
the registration invariant — dead members allowed), a request that fails on
every backend is resolved with service-unavailable after exactly 3
distinct-backend attempts.  (As stated, the 503 outcome fails when fewer
than 3 backends are alive: the chain then dies on `nextLivePeer = none`
with no response; see the counterexample.) -/
theorem C5_attempt_cap :
    (∀ (healthy : String → Bool) (pool : ServerPool) (ctx : ReqContext),
      GetAttemptsFromContext ctx > 3 →
      lb healthy pool ctx = (pool, Response.serviceUnavailable, [])) ∧
    (∀ (healthy : String → Bool) (pool : ServerPool) (ctx : ReqContext),
      List.countP isMarkDeadEvent (lb healthy pool ctx).2.2 ≤
        4 - GetAttemptsFromContext ctx) ∧
    (∀ (healthy : String → Bool) (pool : ServerPool),
      List.countP isMarkDeadEvent (lb healthy pool ⟨none, none⟩).2.2 ≤ 3) ∧
    ∀ s : ServerPool, (s.backends.map Backend.url).Nodup →
      3 ≤ (s.backends.filter fun b => IsAlive b).length →
      ∃ u1 u2 u3 p, u1 ≠ u2 ∧ u1 ≠ u3 ∧ u2 ≠ u3 ∧
        u1 ∈ s.backends.map Backend.url ∧ u2 ∈ s.backends.map Backend.url ∧
        u3 ∈ s.backends.map Backend.url ∧
        lb (fun _ => false) s ⟨none, none⟩ =
          (p, Response.serviceUnavailable,
            [Event.backoffAndRetry u1 10 1, Event.backoffAndRetry u1 10 2,
             Event.backoffAndRetry u1 10 3, Event.markDead u1, Event.redispatch 2,
             Event.markDead u2, Event.redispatch 3, Event.markDead u3,
             Event.redispatch 4]) := by
  refine ⟨fun healthy pool ctx hgt => lb_guard healthy pool ctx hgt,
    markDead_count_le,
    fun healthy pool => markDead_count_le healthy pool ⟨none, none⟩, ?_⟩
  intro s hnd hcnt
  obtain ⟨a1, a2, a3, hd12, hd13, hd23, hA1, hA2, hA3⟩ :=
    exists_three_alive s.backends hcnt
  have hpos : 0 < s.backends.length := by
    have := isAliveAt_lt _ _ hA1
    omega
  -- hop 1: a peer is selected, it fails 3 retries, gets marked dead
  obtain ⟨s1, i1, hg1, hbk1, ha1⟩ := GetNextPeer_of_exists_alive s hpos a1 hA1
  have hi1 : i1 < s.backends.length := isAliveAt_lt _ _ ha1
  have hu1bs : urlAt s1.backends i1 = urlAt s.backends i1 := by rw [hbk1]
  have hP1bk : (MarkBackendStatus s1 (urlAt s1.backends i1) false).backends =
      markFirst s.backends (urlAt s.backends i1) false := by
    show markFirst s1.backends (urlAt s1.backends i1) false = _
    rw [hbk1]
  have hP1len : (MarkBackendStatus s1 (urlAt s1.backends i1) false).backends.length =
      s.backends.length := by
    rw [hP1bk, markFirst_length]
  -- hop 2: one of the three alive backends differs from i1 and survives
  obtain ⟨j1, hj1alive, hj1ne⟩ : ∃ j, isAliveAt s.backends j = true ∧ j ≠ i1 := by
    by_cases he : i1 = a1
    · exact ⟨a2, hA2, by omega⟩
    · exact ⟨a1, hA1, by omega⟩
  have hj1lt : j1 < s.backends.length := isAliveAt_lt _ _ hj1alive
  have hj1url : urlAt s.backends j1 ≠ urlAt s.backends i1 :=
    fun hc => hj1ne (urlAt_inj s.backends hnd hj1lt hi1 hc)
  have haj1 : isAliveAt (MarkBackendStatus s1 (urlAt s1.backends i1) false).backends j1
      = true := by
    rw [hP1bk, isAliveAt_markFirst_of_ne _ _ _ j1 hj1url]
    exact hj1alive
  obtain ⟨s2, i2, hg2, hbk2, ha2⟩ :=
    GetNextPeer_of_exists_alive (MarkBackendStatus s1 (urlAt s1.backends i1) false)
      (by rw [hP1len]; omega) j1 haj1
  have hi2' : i2 < (MarkBackendStatus s1 (urlAt s1.backends i1) false).backends.length :=
    isAliveAt_lt _ _ ha2
  have hi2 : i2 < s.backends.length := by rw [hP1len] at hi2'; exact hi2'
  have hu2bs : urlAt s2.backends i2 = urlAt s.backends i2 := by
    rw [hbk2, hP1bk, urlAt_markFirst]
  have hne12 : urlAt s.backends i1 ≠ urlAt s.backends i2 := by
    intro hc
    have hii : i1 = i2 := urlAt_inj s.backends hnd hi1 hi2 hc
    have hdead : isAliveAt (MarkBackendStatus s1 (urlAt s1.backends i1) false).backends i1
        = false := by
      rw [hP1bk]
      exact isAliveAt_markFirst_self s.backends _ i1 hnd hi1 rfl
    rw [← hii] at ha2
    simp [hdead] at ha2
  have hP2bk : (MarkBackendStatus s2 (urlAt s2.backends i2) false).backends =
      markFirst (markFirst s.backends (urlAt s.backends i1) false)
        (urlAt s.backends i2) false := by
    show markFirst s2.backends (urlAt s2.backends i2) false = _
    rw [hbk2, hP1bk, urlAt_markFirst]
  have hP2len : (MarkBackendStatus s2 (urlAt s2.backends i2) false).backends.length =
      s.backends.length := by
    rw [hP2bk, markFirst_length, markFirst_length]
  -- hop 3: one of the three alive backends misses both i1 and i2
  obtain ⟨j2, hj2alive, hj2ne1, hj2ne2⟩ :
      ∃ j, isAliveAt s.backends j = true ∧ j ≠ i1 ∧ j ≠ i2 := by
    by_cases h1 : a1 ≠ i1 ∧ a1 ≠ i2
    · exact ⟨a1, hA1, h1.1, h1.2⟩
    · by_cases h2 : a2 ≠ i1 ∧ a2 ≠ i2
      · exact ⟨a2, hA2, h2.1, h2.2⟩
      · rw [not_and_or, not_ne_iff, not_ne_iff] at h1 h2
        refine ⟨a3, hA3, ?_, ?_⟩ <;>
          rcases h1 with h1 | h1 <;> rcases h2 with h2 | h2 <;> omega
  have hj2lt : j2 < s.backends.length := isAliveAt_lt _ _ hj2alive
  have hj2u1 : urlAt s.backends j2 ≠ urlAt s.backends i1 :=
    fun hc => hj2ne1 (urlAt_inj s.backends hnd hj2lt hi1 hc)
  have hj2u2 : urlAt s.backends j2 ≠ urlAt s.backends i2 :=
    fun hc => hj2ne2 (urlAt_inj s.backends hnd hj2lt hi2 hc)
  have haj2 : isAliveAt (MarkBackendStatus s2 (urlAt s2.backends i2) false).backends j2
      = true := by
    rw [hP2bk, isAliveAt_markFirst_of_ne _ _ _ j2 (by rw [urlAt_markFirst]; exact hj2u2),
      isAliveAt_markFirst_of_ne _ _ _ j2 hj2u1]
    exact hj2alive
  obtain ⟨s3, i3, hg3, hbk3, ha3⟩ :=
    GetNextPeer_of_exists_alive (MarkBackendStatus s2 (urlAt s2.backends i2) false)
      (by rw [hP2len]; omega) j2 haj2
  have hi3' : i3 < (MarkBackendStatus s2 (urlAt s2.backends i2) false).backends.length :=
    isAliveAt_lt _ _ ha3
  have hi3 : i3 < s.backends.length := by rw [hP2len] at hi3'; exact hi3'
  have hu3bs : urlAt s3.backends i3 = urlAt s.backends i3 := by
    rw [hbk3, hP2bk, urlAt_markFirst, urlAt_markFirst]
  have hne13 : urlAt s.backends i1 ≠ urlAt s.backends i3 := by
    intro hc
    have hii : i1 = i3 := urlAt_inj s.backends hnd hi1 hi3 hc
    have hdead1 : isAliveAt (markFirst s.backends (urlAt s.backends i1) false) i1 = false :=
      isAliveAt_markFirst_self s.backends _ i1 hnd hi1 rfl
    rw [← hii] at ha3
    rw [hP2bk] at ha3
    have := isAliveAt_markFirst_mono _ _ i1 ha3
    simp [hdead1] at this
  have hne23 : urlAt s.backends i2 ≠ urlAt s.backends i3 := by
    intro hc
    have hii : i2 = i3 := urlAt_inj s.backends hnd hi2 hi3 hc
    have hnd1 : ((markFirst s.backends (urlAt s.backends i1) false).map Backend.url).Nodup := by
      rw [markFirst_map_url]
      exact hnd
    have hdead2 : isAliveAt (markFirst (markFirst s.backends (urlAt s.backends i1) false)
        (urlAt s.backends i2) false) i2 = false :=
      isAliveAt_markFirst_self _ _ i2 hnd1 (by rw [markFirst_length]; exact hi2)
        (by rw [urlAt_markFirst])
    rw [← hii] at ha3
    rw [hP2bk] at ha3
    simp [hdead2] at ha3
  -- assemble the run
  refine ⟨urlAt s.backends i1, urlAt s.backends i2, urlAt s.backends i3,
    MarkBackendStatus s3 (urlAt s.backends i3) false, hne12, hne13, hne23,
    urlAt_mem _ _ hi1, urlAt_mem _ _ hi2, urlAt_mem _ _ hi3, ?_⟩
  rw [lb_peer_fail (fun _ => false) s ⟨none, none⟩ s1 i1 (by decide) hg1 rfl]
  rw [errorHandler_chain (fun _ => false) (urlAt s1.backends i1) rfl 3 s1 ⟨none, none⟩ rfl
    (by omega)]
  rw [show GetAttemptsFromContext (⟨none, none⟩ : ReqContext) + 1 = 2 from rfl]
  rw [lb_peer_fail (fun _ => false) (MarkBackendStatus s1 (urlAt s1.backends i1) false)
    ⟨some 2, some 3⟩ s2 i2 (by decide) hg2 rfl]
  rw [errorHandler_chain (fun _ => false) (urlAt s2.backends i2) rfl 0 s2 ⟨some 2, some 3⟩
    rfl (by omega)]
  rw [show GetAttemptsFromContext (⟨some 2, some 3⟩ : ReqContext) + 1 = 3 from rfl]
  rw [lb_peer_fail (fun _ => false) (MarkBackendStatus s2 (urlAt s2.backends i2) false)
    ⟨some 3, some 3⟩ s3 i3 (by decide) hg3 rfl]
  rw [errorHandler_chain (fun _ => false) (urlAt s3.backends i3) rfl 0 s3 ⟨some 3, some 3⟩
    rfl (by omega)]
  rw [show GetAttemptsFromContext (⟨some 3, some 3⟩ : ReqContext) + 1 = 4 from rfl]
  rw [lb_guard (fun _ => false) (MarkBackendStatus s3 (urlAt s3.backends i3) false)
    ⟨some 4, some 3⟩ (by decide)]
  rw [hu1bs, hu2bs, hu3bs]
  rfl

/-- Witness for C5 (amended): the guard at a concrete over-budget context,
the 3-markDead bound at a concrete fresh request, and the full 3-failover
run on a concrete 4-backend pool that carries one dead member alongside its
3 alive ones. -/
theorem C5_witness :
    lb (fun _ => false) ⟨[⟨"x", true⟩], 9⟩ ⟨some 5, none⟩ =
      (⟨[⟨"x", true⟩], 9⟩, Response.serviceUnavailable, []) ∧
    List.countP isMarkDeadEvent
      (lb (fun _ => false) ⟨[⟨"w", true⟩], 4⟩ ⟨none, none⟩).2.2 ≤ 3 ∧
    ∃ u1 u2 u3 p, u1 ≠ u2 ∧ u1 ≠ u3 ∧ u2 ≠ u3 ∧
      u1 ∈ ([⟨"x", true⟩, ⟨"d", false⟩, ⟨"y", true⟩, ⟨"z", true⟩] : List Backend).map
        Backend.url ∧
      u2 ∈ ([⟨"x", true⟩, ⟨"d", false⟩, ⟨"y", true⟩, ⟨"z", true⟩] : List Backend).map
        Backend.url ∧
      u3 ∈ ([⟨"x", true⟩, ⟨"d", false⟩, ⟨"y", true⟩, ⟨"z", true⟩] : List Backend).map
        Backend.url ∧
      lb (fun _ => false) ⟨[⟨"x", true⟩, ⟨"d", false⟩, ⟨"y", true⟩, ⟨"z", true⟩], 0⟩
          ⟨none, none⟩ =
        (p, Response.serviceUnavailable,
          [Event.backoffAndRetry u1 10 1, Event.backoffAndRetry u1 10 2,
           Event.backoffAndRetry u1 10 3, Event.markDead u1, Event.redispatch 2,
           Event.markDead u2, Event.redispatch 3, Event.markDead u3,
           Event.redispatch 4]) :=
  ⟨C5_attempt_cap.1 (fun _ => false) ⟨[⟨"x", true⟩], 9⟩ ⟨some 5, none⟩ (by decide),
   C5_attempt_cap.2.2.1 (fun _ => false) ⟨[⟨"w", true⟩], 4⟩,
   C5_attempt_cap.2.2.2 ⟨[⟨"x", true⟩, ⟨"d", false⟩, ⟨"y", true⟩, ⟨"z", true⟩], 0⟩
     (by decide) (by decide)⟩

/-- Counterexample to C5 as stated: on a fully-alive pool of only 2
backends, a request that fails on every backend it is routed to is *not*
resolved with a service-unavailable response — after 2 distinct-backend
attempts `GetNextPeer` returns `nil` and the dispatcher silently drops the
request. -/
theorem C5_counterexample :
    (lb (fun _ => false) ⟨[⟨"c1", true⟩, ⟨"c2", true⟩], 0⟩ ⟨none, none⟩).2.1 =
      Response.noResponse ∧
    Response.noResponse ≠ Response.serviceUnavailable ∧
    List.countP (fun e => match e with
        | Event.markDead _ => true
        | _ => false)
      (lb (fun _ => false) ⟨[⟨"c1", true⟩, ⟨"c2", true⟩], 0⟩ ⟨none, none⟩).2.2 = 2 := by
  have hrun : lb (fun _ => false) ⟨[⟨"c1", true⟩, ⟨"c2", true⟩], 0⟩ ⟨none, none⟩ =
      lbFuel 20 (fun _ => false) ⟨[⟨"c1", true⟩, ⟨"c2", true⟩], 0⟩ ⟨none, none⟩ :=
    (lb_eq_fuel 20).1 _ _ _ (by decide)
  rw [hrun]
  exact ⟨by decide, by decide, by decide⟩

/-! ## Claim theorems: startup registration (C7) and health sweep (C9) -/

/-- Claim C7 (code bug): the registration loop in `main` never appends a
`Backend` to `serverPool` (and the `http.Server` is even started inside the
parse loop), so after startup the pool holds 0 records — not one per
distinct configured address, and no backend with the alive-true default
exists.  Evaluated at the one-address input `-backend=http://localhost:3031`. -/
theorem C7_pool_never_populated :
    mainStartup ["http://localhost:3031"] = ⟨[], 0⟩ ∧
    (mainStartup ["http://localhost:3031"]).backends.length = 0 ∧
    (["http://localhost:3031"] : List String).length = 1 ∧
    (mainStartup ["http://localhost:3031"]).backends.length ≠
      (["http://localhost:3031"] : List String).length := by
  exact ⟨rfl, rfl, rfl, by decide⟩

/-- Claim C9 (confirmed): a health sweep rewrites every backend, in pool
order, to the outcome of a fresh transport-level probe of its own address
under the 2-second timeout: probe success means alive, any probe error
means dead; nothing else about the pool changes. -/
theorem C9_health_sweep (dial : String → Nat → Option Unit) (s : ServerPool) :
    (HealthCheck dial s).backends =
      s.backends.map (fun b => SetAlive b (isBackendAlive dial b.url)) ∧
    (HealthCheck dial s).backends.length = s.backends.length ∧
    (∀ i : Nat, (HealthCheck dial s).backends[i]? =
      (s.backends[i]?).map fun b => SetAlive b (isBackendAlive dial b.url)) ∧
    (∀ u, isBackendAlive dial u = true ↔ dial u healthCheckTimeoutSeconds ≠ none) ∧
    (HealthCheck dial s).current = s.current ∧
    healthCheckTimeoutSeconds = 2 := by
  have hmap : ∀ bs : List Backend, healthCheckLoop dial bs =
      bs.map fun b => SetAlive b (isBackendAlive dial b.url) := by
    intro bs
    induction bs with
    | nil => rfl
    | cons b rest ih => simp [healthCheckLoop, ih]
  refine ⟨hmap s.backends, ?_, ?_, ?_, rfl, rfl⟩
  · show (healthCheckLoop dial s.backends).length = _
    rw [hmap]
    simp
  · intro i
    show (healthCheckLoop dial s.backends)[i]? = _
    rw [hmap, List.getElem?_map]
  · intro u
    constructor
    · intro h hc
      simp [isBackendAlive, hc] at h
    · intro h
      cases hd : dial u healthCheckTimeoutSeconds with
      | none => exact absurd hd h
      | some c => simp [isBackendAlive, hd]

end LB
